import Mathlib

/-!
Shallow embedding of the SMWS lookup bot (`src/cogs/brand_commands.py`) and
proofs about its name/code resolution, dataset loading and record
presentation.

Conventions of the embedding:
* Python strings are `List Char` (`Str`); Python string operations
  (`lower`, `upper`, `strip`, slicing, `len`) act on code points, exactly as
  `List Char` does.
* Python dicts are association lists with insertion order and
  last-write-wins assignment (`dictSet`); Python sets of code strings are
  `List Str` with membership-tested insertion (`setAdd`); the claims under
  proof are all at the level of membership/lookup, which this preserves.
* Exceptions that `load_brands` raises and re-raises are `Except` errors.
* `difflib.get_close_matches` / `SequenceMatcher.ratio` are translated from
  CPython's `difflib.py` (Ratcliff-Obershelp matching blocks, the quick
  upper-bound filters, heap selection of the n best as a stable descending
  sort on the (ratio, candidate) pairs).  Float cutoff comparisons are
  modelled as exact rational comparisons: every ratio here is `2m/t` with
  `t` bounded by the lengths of two short strings, and no such rational
  other than `3/5` (resp. `1/2`) itself lies within a half-ulp of the
  double nearest `0.6` (resp. `0.5`), so the float and rational
  comparisons agree.
-/

set_option maxRecDepth 4000

abbrev Str := List Char

/-- `Str` of a Lean string literal. -/
def str (s : String) : Str := s.toList

/-- Python `str.lower` on one character, for the character repertoire
appearing in this program: ASCII plus the Latin-1 letters of the alias
table, where only `Ã` (U+00C3) is case-changing. -/
def pyLowerChar (c : Char) : Char :=
  if 'A' ≤ c ∧ c ≤ 'Z' then Char.ofNat (c.toNat + 32)
  else if c = 'Ã' then 'ã' else c

/-- Python `str.lower`. -/
def pyLower (s : Str) : Str := s.map pyLowerChar

/-- Python `str.upper` on one character; codes and ids are ASCII. -/
def pyUpperChar (c : Char) : Char :=
  if 'a' ≤ c ∧ c ≤ 'z' then Char.ofNat (c.toNat - 32)
  else if c = 'ã' then 'Ã' else c

/-- Python `str.upper`. -/
def pyUpper (s : Str) : Str := s.map pyUpperChar

/-- The ASCII whitespace stripped by Python `str.strip()` (the inputs in
scope are ASCII). -/
def isPySpace (c : Char) : Bool :=
  c == ' ' || c == '\t' || c == '\n' || c == '\r' || c == '\x0B' || c == '\x0C'

/-- Python `str.strip()`. -/
def pyStrip (s : Str) : Str :=
  ((s.dropWhile isPySpace).reverse.dropWhile isPySpace).reverse

/-- Python dict assignment `d[k] = v`: overwrite in place, else append. -/
def dictSet {β : Type} (d : List (Str × β)) (k : Str) (v : β) : List (Str × β) :=
  match d with
  | [] => [(k, v)]
  | (k', v') :: rest => if k' = k then (k, v) :: rest else (k', v') :: dictSet rest k v

/-- Python dict lookup `d[k]` / `k in d`. -/
def dlookup {β : Type} (d : List (Str × β)) (k : Str) : Option β :=
  match d with
  | [] => none
  | (k', v) :: rest => if k' = k then some v else dlookup rest k

/-- Python `list(d.keys())` in insertion order. -/
def dkeys {β : Type} (d : List (Str × β)) : List Str := d.map Prod.fst

/-- Python `set.add` on a set modelled as a duplicate-free list. -/
def setAdd (s : List Str) (x : Str) : List Str :=
  if x ∈ s then s else s ++ [x]

/- ---------------------------------------------------------------------
difflib model: `SequenceMatcher(None, a, b)` with `a` the candidate and
`b` the word, as used by `get_close_matches`.
--------------------------------------------------------------------- -/

/-- Autojunk "popular" test of `SequenceMatcher.__chain_b`: for `len b ≥ 200`,
characters occurring more than `len b // 200` times are dropped from `b2j`. -/
def isPopular (b : Str) (c : Char) : Bool :=
  200 ≤ b.length && b.length / 200 < b.count c

/-- The `b2j[a!i]` index list restricted to `[blo, bhi)` — the `j` values the
inner loop of `find_longest_match` visits (its `continue`/`break` on an
ascending index list is a range filter). -/
def validJs (b : Str) (c : Char) (blo bhi : Nat) : List Nat :=
  if isPopular b c then []
  else (List.range b.length).filter (fun j => b.getD j ' ' == c && blo ≤ j && j < bhi)

/-- `(besti, bestj, bestsize)` state of `find_longest_match`. -/
structure Best where
  i : Nat
  j : Nat
  size : Nat
deriving DecidableEq

/-- One row of the `find_longest_match` DP: fold the valid `j`s (ascending),
`k = j2len.get(j-1, 0) + 1`, update best on `k > bestsize`. -/
def dpRow (valid : List Nat) (i : Nat) (j2len : Nat → Nat) (best : Best) : Best :=
  valid.foldl (fun bst j =>
    let k := (if j = 0 then 0 else j2len (j - 1)) + 1
    if bst.size < k then ⟨i + 1 - k, j + 1 - k, k⟩ else bst) best

/-- The `newj2len` dict of one DP row, as a function (0 where absent). -/
def nextJ2len (valid : List Nat) (j2len : Nat → Nat) : Nat → Nat :=
  fun j => if j ∈ valid then (if j = 0 then 0 else j2len (j - 1)) + 1 else 0

/-- The DP phase of `find_longest_match` over `i ∈ [alo, ahi)`. -/
def dpAll (a b : Str) (alo ahi blo bhi : Nat) : Best :=
  (((List.range ahi).drop alo).foldl
    (fun (st : (Nat → Nat) × Best) i =>
      let valid := validJs b (a.getD i ' ') blo bhi
      (nextJ2len valid st.1, dpRow valid i st.1 st.2))
    (fun _ => 0, ⟨alo, blo, 0⟩)).2

/-- The first extension loop of `find_longest_match` (with `isjunk = None`
the junk predicate is constantly false, so the condition is just the
character comparison; the two junk-extension loops never fire).  The fuel
argument starts at `best.i` and bounds the decreasing `besti`. -/
def extendLeft (a b : Str) (alo blo : Nat) : Nat → Best → Best
  | 0, best => best
  | fuel + 1, best =>
    if alo < best.i ∧ blo < best.j ∧ a.getD (best.i - 1) '\x00' = b.getD (best.j - 1) '\x01'
    then extendLeft a b alo blo fuel ⟨best.i - 1, best.j - 1, best.size + 1⟩
    else best

/-- The second extension loop of `find_longest_match`. -/
def extendRight (a b : Str) (ahi bhi : Nat) : Nat → Best → Best
  | 0, best => best
  | fuel + 1, best =>
    if best.i + best.size < ahi ∧ best.j + best.size < bhi ∧
       a.getD (best.i + best.size) '\x00' = b.getD (best.j + best.size) '\x01'
    then extendRight a b ahi bhi fuel ⟨best.i, best.j, best.size + 1⟩
    else best

/-- `SequenceMatcher.find_longest_match` on the ranges `a[alo:ahi]`,
`b[blo:bhi]`. -/
def findLongestMatch (a b : Str) (alo ahi blo bhi : Nat) : Best :=
  let best := dpAll a b alo ahi blo bhi
  let best := extendLeft a b alo blo best.i best
  extendRight a b ahi bhi (ahi - (best.i + best.size)) best

/-- Total size of all matching blocks (`sum(triple[-1] for triple in
get_matching_blocks())`): the recursive divide on the longest match.  The
fuel only bounds the recursion depth, which is at most the interval width;
`matchTotal` supplies more than enough. -/
def matchTotalAux (a b : Str) : Nat → Nat → Nat → Nat → Nat → Nat
  | 0, _, _, _, _ => 0
  | fuel + 1, alo, ahi, blo, bhi =>
    let m := findLongestMatch a b alo ahi blo bhi
    if m.size = 0 then 0
    else m.size + matchTotalAux a b fuel alo m.i blo m.j
               + matchTotalAux a b fuel (m.i + m.size) ahi (m.j + m.size) bhi

/-- Matched-character count underlying `SequenceMatcher.ratio()`. -/
def matchTotal (a b : Str) : Nat :=
  matchTotalAux a b (a.length + b.length + 1) 0 a.length 0 b.length

/-- Multiset-intersection count underlying `quick_ratio()`. -/
def quickMatches : Str → Str → Nat
  | [], _ => 0
  | c :: as_, bs => if c ∈ bs then 1 + quickMatches as_ (bs.erase c) else quickMatches as_ bs

/-- `num2 / t ≥ cn / cd` as an exact rational comparison, with
`_calculate_ratio`'s convention that `t = 0` means ratio `1.0`.
`num2` is twice a match count. -/
def cutoffLe (num2 t cn cd : Nat) : Bool :=
  if t = 0 then cn ≤ cd else cn * t ≤ cd * num2

/-- The ratio of a scored candidate as an exact rational
(`t = 0` ↦ `1.0`). -/
def ratioPair (m t : Nat) : Nat × Nat :=
  if t = 0 then (1, 1) else (2 * m, t)

/-- Python `>` on characters (code points). -/
def charGt (a b : Char) : Bool := b.toNat < a.toNat

/-- Python `>` on strings: lexicographic by code points. -/
def lexGt : Str → Str → Bool
  | [], _ => false
  | _ :: _, [] => true
  | a :: as_, b :: bs => if a = b then lexGt as_ bs else charGt a b

/-- Python `>` on the `(ratio, candidate)` pairs that `_nlargest` orders:
ratio first, then the candidate string. -/
def tupGt (p q : Nat × Nat × Str) : Bool :=
  let r := ratioPair p.1 p.2.1
  let s := ratioPair q.1 q.2.1
  if r.1 * s.2 = s.1 * r.2 then lexGt p.2.2 q.2.2 else s.1 * r.2 < r.1 * s.2

/-- Stable insertion into a descending list: pass over strictly greater
elements only, so earlier-listed equals stay first. -/
def insertDesc (gt : α → α → Bool) (x : α) : List α → List α
  | [] => [x]
  | y :: ys => if gt y x then y :: insertDesc gt x ys else x :: y :: ys

/-- Stable descending sort (`sorted(..., reverse=True)`, the documented
equivalent of `heapq.nlargest`). -/
def sortDesc (gt : α → α → Bool) : List α → List α
  | [] => []
  | x :: xs => insertDesc gt x (sortDesc gt xs)

/-- `difflib.get_close_matches(word, poss, n, cn/cd)`: filter by the three
ratio tests (each an upper bound of the next, kept for fidelity), then the
`n` largest `(ratio, candidate)` pairs, largest first. -/
def get_close_matches (word : Str) (poss : List Str) (n cn cd : Nat) : List Str :=
  let scored := poss.filterMap (fun x =>
    let t := x.length + word.length
    if cutoffLe (2 * min x.length word.length) t cn cd
       && cutoffLe (2 * quickMatches x word) t cn cd
       && cutoffLe (2 * matchTotal x word) t cn cd
    then some (matchTotal x word, t, x) else none)
  (((sortDesc tupGt scored).take n).map (fun p => p.2.2))
/-- The `variants` dict literal of `initialize_name_variants`, as the
source order of key/value pairs (the duplicate `nc\x27nean distillery` key of
the Python dict literal is kept; `variantsDict` applies the dict-literal
semantics).  Non-ASCII characters are written as unicode escapes; they are
the mojibake characters present verbatim in the source. -/
def variantsSrc : List (String × List String) := [
  ("inverleven", ["leven", "inver"]),
  ("old pulteney", ["pulteney", "pult"]),
  ("glasgow distillery", ["glasgow distillery company", "glasgow"]),
  ("few spirits", ["few"]),
  ("isle of harris distillery", ["hearach"]),
  ("nc\x27nean distillery", ["nc\x27nean"]),
  ("st. george\u00E2\u20AC\u2122s (the english whisky co.)", ["st. george\u00E2\u20AC\u2122s", "the english whisky co.", "the english whisky company"]),
  ("springbank (hazelburn)", ["hazelburn"]),
  ("isle of arran", ["arran"]),
  ("braeval (braes of glenlivet)", ["braeval", "braes of glenlivet"]),
  ("miltonduff (mosstowie)", ["miltonduff", "mosstowie"]),
  ("glenburgie (glencraig)", ["glenburgie", "glencraig"]),
  ("glenury / glenury royal", ["glenury", "glenury royal"]),
  ("tobermory", ["ledaig"]),
  ("bruichladdich", ["port charlotte", "octomore", "laddie"]),
  ("laphroaig", ["frog"]),
  ("royal brackla", ["brackla"]),
  ("royal lochnagar", ["lochnagar"]),
  ("springbank (longrow)", ["longrow"]),
  ("knockdhu (ancnoc)", ["knockdhu", "ancnoc"]),
  ("cooley (unpeated)", ["cooley"]),
  ("cooley / connemara (peated)", ["connemara"]),
  ("breuckelen distilling", ["breuckelen"]),
  ("copperworks distilling Co.", ["copperworks"]),
  ("high coast distillery", ["high coast"]),
  ("sm\u00C3\u00B6gen whisky ab", ["smogen"]),
  ("west cork distillers", ["west cork"]),
  ("mosgaard whisky", ["mosgaard"]),
  ("milk & honey distillery", ["milk & honey", "milk and honey"]),
  ("distillerie de warenghem", ["warenghem", "armorik"]),
  ("mars shinshu", ["shinshu"]),
  ("mars tsunuki:", ["tsunuki"]),
  ("nc\x27nean distillery", ["nc\x27nean"]),
  ("woodinville whiskey co.", ["woodinville"]),
  ("finger lakes distilling", ["finger lakes"]),
  ("new york distilling co.", ["new york distilling", "perry\x27s tot", "new york"]),
  ("peerless distillery", ["peerless"]),
  ("kyr\u00C3\u00B6 distillery", ["kyro"]),
  ("journeyman distillery", ["journeyman"]),
  ("heaven hill distillery", ["heaven hill"]),
  ("demerara distillers (el dorado)", ["demerara", "el dorado"]),
  ("trinidad distillers (angostura)", ["trinidad", "angostura"]),
  ("compa\u00C3\u00B1ia licorera de nicaragua (flor de ca\u00C3\u00B1a)", ["flor de ca\u00C3\u00B1a"]),
  ("varela hermanos (ron abuelo)", ["ron abuelo"]),
  ("j. goudoulin (veuve goudoulin)", ["goudoulin"]),
  ("the borders distillery", ["borders", "the borders"]),
  ("holyrood distillery", ["holyrood"]),
  ("Isle of Raasay Distillery", ["Raasay"])]

/-- The value of `name_variants` after `initialize_name_variants`, written
out literally so that proofs can evaluate lookups cheaply; `name_variants_eq`
checks it against the faithful fold `name_variants`. -/
def nameVariantsTable : List (Str × Str) := [
  (str "leven", str "inverleven"),
  (str "inver", str "inverleven"),
  (str "inverleven", str "inverleven"),
  (str "pulteney", str "old pulteney"),
  (str "pult", str "old pulteney"),
  (str "old pulteney", str "old pulteney"),
  (str "glasgow distillery company", str "glasgow distillery"),
  (str "glasgow", str "glasgow distillery"),
  (str "glasgow distillery", str "glasgow distillery"),
  (str "few", str "few spirits"),
  (str "few spirits", str "few spirits"),
  (str "hearach", str "isle of harris distillery"),
  (str "isle of harris distillery", str "isle of harris distillery"),
  (str "nc\x27nean", str "nc\x27nean distillery"),
  (str "nc\x27nean distillery", str "nc\x27nean distillery"),
  (str "st. george\u00E2\u20AC\u2122s", str "st. george\u00E2\u20AC\u2122s (the english whisky co.)"),
  (str "the english whisky co.", str "st. george\u00E2\u20AC\u2122s (the english whisky co.)"),
  (str "the english whisky company", str "st. george\u00E2\u20AC\u2122s (the english whisky co.)"),
  (str "st. george\u00E2\u20AC\u2122s (the english whisky co.)", str "st. george\u00E2\u20AC\u2122s (the english whisky co.)"),
  (str "hazelburn", str "springbank (hazelburn)"),
  (str "springbank (hazelburn)", str "springbank (hazelburn)"),
  (str "arran", str "isle of arran"),
  (str "isle of arran", str "isle of arran"),
  (str "braeval", str "braeval (braes of glenlivet)"),
  (str "braes of glenlivet", str "braeval (braes of glenlivet)"),
  (str "braeval (braes of glenlivet)", str "braeval (braes of glenlivet)"),
  (str "miltonduff", str "miltonduff (mosstowie)"),
  (str "mosstowie", str "miltonduff (mosstowie)"),
  (str "miltonduff (mosstowie)", str "miltonduff (mosstowie)"),
  (str "glenburgie", str "glenburgie (glencraig)"),
  (str "glencraig", str "glenburgie (glencraig)"),
  (str "glenburgie (glencraig)", str "glenburgie (glencraig)"),
  (str "glenury", str "glenury / glenury royal"),
  (str "glenury royal", str "glenury / glenury royal"),
  (str "glenury / glenury royal", str "glenury / glenury royal"),
  (str "ledaig", str "tobermory"),
  (str "tobermory", str "tobermory"),
  (str "port charlotte", str "bruichladdich"),
  (str "octomore", str "bruichladdich"),
  (str "laddie", str "bruichladdich"),
  (str "bruichladdich", str "bruichladdich"),
  (str "frog", str "laphroaig"),
  (str "laphroaig", str "laphroaig"),
  (str "brackla", str "royal brackla"),
  (str "royal brackla", str "royal brackla"),
  (str "lochnagar", str "royal lochnagar"),
  (str "royal lochnagar", str "royal lochnagar"),
  (str "longrow", str "springbank (longrow)"),
  (str "springbank (longrow)", str "springbank (longrow)"),
  (str "knockdhu", str "knockdhu (ancnoc)"),
  (str "ancnoc", str "knockdhu (ancnoc)"),
  (str "knockdhu (ancnoc)", str "knockdhu (ancnoc)"),
  (str "cooley", str "cooley (unpeated)"),
  (str "cooley (unpeated)", str "cooley (unpeated)"),
  (str "connemara", str "cooley / connemara (peated)"),
  (str "cooley / connemara (peated)", str "cooley / connemara (peated)"),
  (str "breuckelen", str "breuckelen distilling"),
  (str "breuckelen distilling", str "breuckelen distilling"),
  (str "copperworks", str "copperworks distilling Co."),
  (str "copperworks distilling co.", str "copperworks distilling Co."),
  (str "high coast", str "high coast distillery"),
  (str "high coast distillery", str "high coast distillery"),
  (str "smogen", str "sm\u00C3\u00B6gen whisky ab"),
  (str "sm\u00E3\u00B6gen whisky ab", str "sm\u00C3\u00B6gen whisky ab"),
  (str "west cork", str "west cork distillers"),
  (str "west cork distillers", str "west cork distillers"),
  (str "mosgaard", str "mosgaard whisky"),
  (str "mosgaard whisky", str "mosgaard whisky"),
  (str "milk & honey", str "milk & honey distillery"),
  (str "milk and honey", str "milk & honey distillery"),
  (str "milk & honey distillery", str "milk & honey distillery"),
  (str "warenghem", str "distillerie de warenghem"),
  (str "armorik", str "distillerie de warenghem"),
  (str "distillerie de warenghem", str "distillerie de warenghem"),
  (str "shinshu", str "mars shinshu"),
  (str "mars shinshu", str "mars shinshu"),
  (str "tsunuki", str "mars tsunuki:"),
  (str "mars tsunuki:", str "mars tsunuki:"),
  (str "woodinville", str "woodinville whiskey co."),
  (str "woodinville whiskey co.", str "woodinville whiskey co."),
  (str "finger lakes", str "finger lakes distilling"),
  (str "finger lakes distilling", str "finger lakes distilling"),
  (str "new york distilling", str "new york distilling co."),
  (str "perry\x27s tot", str "new york distilling co."),
  (str "new york", str "new york distilling co."),
  (str "new york distilling co.", str "new york distilling co."),
  (str "peerless", str "peerless distillery"),
  (str "peerless distillery", str "peerless distillery"),
  (str "kyro", str "kyr\u00C3\u00B6 distillery"),
  (str "kyr\u00E3\u00B6 distillery", str "kyr\u00C3\u00B6 distillery"),
  (str "journeyman", str "journeyman distillery"),
  (str "journeyman distillery", str "journeyman distillery"),
  (str "heaven hill", str "heaven hill distillery"),
  (str "heaven hill distillery", str "heaven hill distillery"),
  (str "demerara", str "demerara distillers (el dorado)"),
  (str "el dorado", str "demerara distillers (el dorado)"),
  (str "demerara distillers (el dorado)", str "demerara distillers (el dorado)"),
  (str "trinidad", str "trinidad distillers (angostura)"),
  (str "angostura", str "trinidad distillers (angostura)"),
  (str "trinidad distillers (angostura)", str "trinidad distillers (angostura)"),
  (str "flor de ca\u00E3\u00B1a", str "compa\u00C3\u00B1ia licorera de nicaragua (flor de ca\u00C3\u00B1a)"),
  (str "compa\u00E3\u00B1ia licorera de nicaragua (flor de ca\u00E3\u00B1a)", str "compa\u00C3\u00B1ia licorera de nicaragua (flor de ca\u00C3\u00B1a)"),
  (str "ron abuelo", str "varela hermanos (ron abuelo)"),
  (str "varela hermanos (ron abuelo)", str "varela hermanos (ron abuelo)"),
  (str "goudoulin", str "j. goudoulin (veuve goudoulin)"),
  (str "j. goudoulin (veuve goudoulin)", str "j. goudoulin (veuve goudoulin)"),
  (str "borders", str "the borders distillery"),
  (str "the borders", str "the borders distillery"),
  (str "the borders distillery", str "the borders distillery"),
  (str "holyrood", str "holyrood distillery"),
  (str "holyrood distillery", str "holyrood distillery"),
  (str "raasay", str "Isle of Raasay Distillery"),
  (str "isle of raasay distillery", str "Isle of Raasay Distillery")]

/-- The Python dict built from the `variants` literal: first occurrence
fixes the position, last occurrence fixes the value. -/
def variantsDict : List (Str × List String) :=
  variantsSrc.foldl (fun d kv => dictSet d (str kv.1) kv.2) []

/-- `initialize_name_variants`: for each `(main_name, variant_list)` item,
register every variant (lower-cased) and then the main name itself
(lower-cased) as keys mapping to `main_name` (original case). -/
def name_variants : List (Str × Str) :=
  variantsDict.foldl (fun nv kv =>
    dictSet (kv.2.foldl (fun nv v => dictSet nv (pyLower (str v)) kv.1) nv)
      (pyLower kv.1) kv.1) []

theorem name_variants_eq : name_variants = nameVariantsTable := by rfl

/- ---------------------------------------------------------------------
Name resolution: `find_distillery` and its three stages.  `distillery_codes`
(the canonical index loaded from `brands.json`) is a parameter; the alias
table is the fixed `name_variants`.  The Python return value
`(None, None)` is `none`, and `(name, codes)` is `some (name, codes)`
(the two components are always both absent or both present in the source).
--------------------------------------------------------------------- -/

abbrev DC := List (Str × List Str)

/-- Stage 1 of `find_distillery`: name-variant lookup; produces a result
only when the standardized name is itself a key of `distillery_codes`. -/
def stageAlias (dc : DC) (nl : Str) : Option (Str × List Str) :=
  match dlookup name_variants nl with
  | some std => (dlookup dc (pyLower std)).map (fun cs => (pyLower std, cs))
  | none => none

/-- Stage 2 of `find_distillery`: direct lookup in `distillery_codes`. -/
def stageDirect (dc : DC) (nl : Str) : Option (Str × List Str) :=
  (dlookup dc nl).map (fun cs => (nl, cs))

/-- Stage 3 of `find_distillery`: `get_close_matches(name_lower, all_names,
n=1, cutoff=0.6)`; on a hit the codes are read back out of the dict (the
dict access cannot fail since the match is one of its keys; the `none`
branch is that dead case). -/
def stageFuzzy (dc : DC) (nl : Str) : Option (Str × List Str) :=
  match get_close_matches nl (dkeys dc) 1 3 5 with
  | m :: _ => (dlookup dc m).map (fun cs => (m, cs))
  | [] => none

/-- `find_distillery(self, name)`, translated clause by clause
(`name_lower = name.lower()` is inlined as `pyLower name`). -/
def find_distillery (dc : DC) (name : Str) : Option (Str × List Str) :=
  match dlookup name_variants (pyLower name) with
  | some std =>
    match dlookup dc (pyLower std) with
    | some codes => some (pyLower std, codes)
    | none =>
      match dlookup dc (pyLower name) with
      | some codes => some (pyLower name, codes)
      | none => stageFuzzy dc (pyLower name)
  | none =>
    match dlookup dc (pyLower name) with
    | some codes => some (pyLower name, codes)
    | none => stageFuzzy dc (pyLower name)

/-- The `/distillery` command's fallback suggestion list when
`find_distillery` resolved nothing: `get_close_matches(name.lower(),
all_names, n=3, cutoff=0.5)`. -/
def suggest (dc : DC) (name : Str) : List Str :=
  get_close_matches (pyLower name) (dkeys dc) 3 1 2

/- ---------------------------------------------------------------------
Dataset load: `load_brands`.
--------------------------------------------------------------------- -/

/-- The optional `details` sub-dict of a source record. -/
structure Details where
  description : Option Str := none
  notes : Option Str := none
deriving DecidableEq

/-- One entry of `data['brands']` as `load_brands` sees it.  A `none` field
models an absent key (`brand['k']` on it raises `KeyError`); `codes`
elements and `id` stand for `str(...)` of the raw values. -/
structure RawBrand where
  name : Option Str := none
  id : Option Str := none
  codes : Option (List Str) := none
  details : Option Details := none
  region : Option Str := none
  style : Option Str := none
deriving DecidableEq

/-- The `brand_info` record stored into `self.brands` (defaults from
`brand.get(..., default)`). -/
structure BrandInfo where
  name : Str
  details : Details
  region : Str
  style : Str
deriving DecidableEq

/-- `if distillery_name not in dc: dc[name] = set()` then
`dc[name].add(str(brand['id']))`, collapsed into one update. -/
def dcAdd (dc : DC) (nm : Str) (id_ : Str) : DC :=
  match dlookup dc nm with
  | some s => dictSet dc nm (setAdd s id_)
  | none => dictSet dc nm (setAdd [] id_)

/-- One iteration of the `for brand in data['brands']` loop.  The accesses
appear in source order: `brand['name']` (the `brand_info` literal), then
`brand['codes']`, then `brand['id']` in the `distillery_codes` update; a
missing key raises, which the surrounding `except` logs and re-raises.
The guarded inner re-assignment of `details` writes back the value the
copy already holds and is a no-op. -/
def processBrand (acc : List (Str × BrandInfo) × DC) (b : RawBrand) :
    Except Str (List (Str × BrandInfo) × DC) :=
  match b.name with
  | none => .error (str "KeyError: name")
  | some nm =>
    let info : BrandInfo :=
      ⟨nm, b.details.getD {}, b.region.getD [], b.style.getD []⟩
    match b.codes with
    | none => .error (str "KeyError: codes")
    | some cs =>
      let brands := cs.foldl (fun bs c => dictSet bs c info) acc.1
      match b.id with
      | none => .error (str "KeyError: id")
      | some id_ => .ok (brands, dcAdd acc.2 (pyLower nm) id_)

/-- The loop of `load_brands` over the record list. -/
def loadBrands : List RawBrand → List (Str × BrandInfo) × DC →
    Except Str (List (Str × BrandInfo) × DC)
  | [], acc => .ok acc
  | b :: rest, acc =>
    match processBrand acc b with
    | .error e => .error e
    | .ok acc' => loadBrands rest acc'

/-- `load_brands` from the empty indexes set up in `__init__`. -/
def loadBrandsAll (data : List RawBrand) : Except Str (List (Str × BrandInfo) × DC) :=
  loadBrands data ([], [])

/- ---------------------------------------------------------------------
The `/smws` command: code lookup over the freshly re-read `data['brands']`
and the embed it renders.  A source record here carries the fields the
command probes; `id` is `str(brand['id'])` (records reaching this point
have an id — a missing one would raise into the generic error handler,
outside the lookup/presentation contract under proof).
--------------------------------------------------------------------- -/

/-- A record of `data['brands']` as the `/smws` command reads it. -/
structure Brand where
  id : Str
  name : Str
  codes : Option (List Str) := none
  region : Option Str := none
  style : Option Str := none
  details : Option Details := none
deriving DecidableEq

/-- `lookup_code = code.strip().upper()`. -/
def normCode (code : Str) : Str := pyUpper (pyStrip code)

/-- `next((brand for brand in data['brands'] if str(brand['id']).upper() ==
lookup_code), None)`. -/
def smwsFind (brands : List Brand) (code : Str) : Option Brand :=
  brands.find? (fun b => pyUpper b.id == normCode code)

/-- The per-field truncation applied to `description` and `notes`:
`if len(s) > 1024: s = s[:1021] + "..."`. -/
def truncateField (s : Str) : Str :=
  if 1024 < s.length then s.take 1021 ++ str "..." else s

/-- One embed field. -/
structure EmbedField where
  fname : Str
  fvalue : Str
deriving DecidableEq

/-- The embed under construction: title, description, fields (no footer or
author are ever set by this command). -/
structure Embed where
  title : Str
  description : Str
  fields : List EmbedField
deriving DecidableEq

/-- `if 'k' in brand and brand['k']: add_field(...)` — present and
non-empty. -/
def optField (nm : Str) (v : Option Str) : List EmbedField :=
  match v with
  | some s => if s = [] then [] else [⟨nm, s⟩]
  | none => []

/-- The Description field: present, non-empty, truncated. -/
def descField (v : Option Str) : List EmbedField :=
  match v with
  | some s => if s = [] then [] else [⟨str "Description", truncateField s⟩]
  | none => []

/-- The Notes field: present, non-empty, truncated. -/
def notesField (v : Option Str) : List EmbedField :=
  match v with
  | some s => if s = [] then [] else [⟨str "Notes", truncateField s⟩]
  | none => []

/-- `", ".join(...)`. -/
def joinComma : List Str → Str
  | [] => []
  | [x] => x
  | x :: xs => x ++ ',' :: ' ' :: joinComma xs

/-- `[str(c) for c in brand['codes'] if str(c).upper() != lookup_code][:25]`
— the code list the Other SMWS Codes field displays. -/
def otherCodes (cs : List Str) (lookupCode : Str) : List Str :=
  (cs.filter (fun c => !(pyUpper c == lookupCode))).take 25

/-- The Other SMWS Codes field (emitted only when the filtered list is
non-empty; note the `[:25]` cap sits inside the join, after the
emptiness test). -/
def codesField (codes : Option (List Str)) (lookupCode : Str) : List EmbedField :=
  match codes with
  | some cs =>
    if cs.filter (fun c => !(pyUpper c == lookupCode)) = [] then []
    else [⟨str "Other SMWS Codes", joinComma (otherCodes cs lookupCode)⟩]
  | none => []

/-- The embed the `/smws` command builds for a found brand: title
`f"SMWS Code {code}"` with the raw input code, description
`brand['name']`, then the optional fields in source order. -/
def buildEmbed (b : Brand) (rawCode lookupCode : Str) : Embed :=
  { title := str "SMWS Code " ++ rawCode
    description := b.name
    fields :=
      optField (str "Region") b.region ++
      optField (str "Style") b.style ++
      (match b.details with
       | some d => descField d.description ++ notesField d.notes
       | none => []) ++
      codesField b.codes lookupCode }

/-- `len(embed)` as discord.py computes it for this embed shape: title +
description + every field name and value (footer and author are unset). -/
def embedLen (e : Embed) : Nat :=
  e.title.length + e.description.length +
    (e.fields.map (fun f => f.fname.length + f.fvalue.length)).sum

/-- Outcome of the `/smws` command's lookup-and-present path. -/
inductive SmwsOutcome where
  | notFound
  | oversized
  | sent (e : Embed)
deriving DecidableEq

/-- The `/smws` command on loaded data: find by id, build the embed, and
send it only if `len(embed) > 6000` does not hold; otherwise report the
size-limit failure instead. -/
def smwsCommand (brands : List Brand) (code : Str) : SmwsOutcome :=
  match smwsFind brands code with
  | none => .notFound
  | some b =>
    let e := buildEmbed b code (normCode code)
    if 6000 < embedLen e then .oversized else .sent e


/- ---------------------------------------------------------------------
Helper lemmas.
--------------------------------------------------------------------- -/

theorem dlookup_mem {β : Type} {d : List (Str × β)} {k : Str} {v : β}
    (h : dlookup d k = some v) : (k, v) ∈ d := by
  induction d with
  | nil => simp [dlookup] at h
  | cons p rest ih =>
    obtain ⟨a, b⟩ := p
    simp only [dlookup] at h
    by_cases hk : a = k
    · rw [if_pos hk] at h
      injection h with hb
      subst hk
      subst hb
      exact List.mem_cons_self _ _
    · rw [if_neg hk] at h
      exact List.mem_cons_of_mem _ (ih h)

theorem dlookup_dictSet_cases {β : Type} {d : List (Str × β)} {k k' : Str} {v w : β}
    (h : dlookup (dictSet d k v) k' = some w) : w = v ∨ dlookup d k' = some w := by
  induction d with
  | nil =>
    simp only [dictSet, dlookup] at h
    by_cases hk : k = k'
    · rw [if_pos hk] at h
      injection h with h
      exact Or.inl h.symm
    · rw [if_neg hk] at h
      simp at h
  | cons p rest ih =>
    obtain ⟨a, b⟩ := p
    simp only [dictSet] at h
    by_cases h1 : a = k
    · rw [if_pos h1] at h
      simp only [dlookup] at h
      by_cases h2 : k = k'
      · rw [if_pos h2] at h
        injection h with h
        exact Or.inl h.symm
      · rw [if_neg h2] at h
        refine Or.inr ?_
        simp only [dlookup]
        rw [if_neg (by rw [h1]; exact h2)]
        exact h
    · rw [if_neg h1] at h
      simp only [dlookup] at h
      by_cases h2 : a = k'
      · rw [if_pos h2] at h
        refine Or.inr ?_
        simp only [dlookup]
        rw [if_pos h2]
        exact h
      · rw [if_neg h2] at h
        rcases ih h with hh | hh
        · exact Or.inl hh
        · refine Or.inr ?_
          simp only [dlookup]
          rw [if_neg h2]
          exact hh

theorem mem_keys_lookup {β : Type} {d : List (Str × β)} {k : Str}
    (h : k ∈ dkeys d) : ∃ v, dlookup d k = some v := by
  induction d with
  | nil => simp [dkeys] at h
  | cons p rest ih =>
    obtain ⟨a, b⟩ := p
    by_cases hk : a = k
    · exact ⟨b, by simp only [dlookup]; rw [if_pos hk]⟩
    · have h' : k ∈ dkeys rest := by
        have he : dkeys ((a, b) :: rest) = a :: dkeys rest := rfl
        rw [he] at h
        rcases List.mem_cons.1 h with h | h
        · exact absurd h.symm hk
        · exact h
      rcases ih h' with ⟨v, hv⟩
      exact ⟨v, by simp only [dlookup]; rw [if_neg hk]; exact hv⟩

theorem mem_insertDesc {α : Type} {gt : α → α → Bool} {x a : α} {l : List α}
    (h : x ∈ insertDesc gt a l) : x = a ∨ x ∈ l := by
  induction l with
  | nil => simpa [insertDesc] using h
  | cons y ys ih =>
    by_cases hgt : gt y a = true
    · simp only [insertDesc, hgt, if_pos] at h
      rcases List.mem_cons.1 h with h | h
      · exact Or.inr (by simp [h])
      · rcases ih h with h | h
        · exact Or.inl h
        · exact Or.inr (by simp [h])
    · simp only [insertDesc, hgt, if_neg, Bool.false_eq_true, not_false_eq_true] at h
      rcases List.mem_cons.1 h with h | h
      · exact Or.inl h
      · exact Or.inr h

theorem mem_sortDesc {α : Type} {gt : α → α → Bool} {x : α} {l : List α}
    (h : x ∈ sortDesc gt l) : x ∈ l := by
  induction l with
  | nil => simp [sortDesc] at h
  | cons y ys ih =>
    simp only [sortDesc] at h
    rcases mem_insertDesc h with h | h
    · simp [h]
    · exact List.mem_cons_of_mem _ (ih h)

theorem get_close_matches_subset {word x : Str} {poss : List Str} {n cn cd : Nat}
    (h : x ∈ get_close_matches word poss n cn cd) : x ∈ poss := by
  unfold get_close_matches at h
  rcases List.mem_map.1 h with ⟨p, hp, hpx⟩
  have hp' := mem_sortDesc (List.take_subset _ _ hp)
  rcases List.mem_filterMap.1 hp' with ⟨y, hy, hfy⟩
  by_cases hc : (cutoffLe (2 * min y.length word.length) (y.length + word.length) cn cd
      && cutoffLe (2 * quickMatches y word) (y.length + word.length) cn cd
      && cutoffLe (2 * matchTotal y word) (y.length + word.length) cn cd) = true
  · simp only [hc, if_pos] at hfy
    cases hfy
    simpa [← hpx] using hy
  · simp [hc] at hfy

theorem get_close_matches_length (word : Str) (poss : List Str) (n cn cd : Nat) :
    (get_close_matches word poss n cn cd).length ≤ n := by
  unfold get_close_matches
  simp only [List.length_map]
  exact List.length_take_le _ _

theorem values_reflexive :
    ∀ kv ∈ name_variants, dlookup name_variants (pyLower kv.2) = some kv.2 := by
  rw [name_variants_eq]
  decide

theorem stageAlias_lookup {dc : DC} {nl n : Str} {cs : List Str}
    (h : stageAlias dc nl = some (n, cs)) : dlookup dc n = some cs := by
  unfold stageAlias at h
  cases h1 : dlookup name_variants nl with
  | none => simp only [h1] at h; exact Option.noConfusion h
  | some std =>
    simp only [h1] at h
    cases h2 : dlookup dc (pyLower std) with
    | none => simp only [h2, Option.map_none'] at h; exact Option.noConfusion h
    | some cs' =>
      simp only [h2, Option.map_some', Option.some.injEq, Prod.mk.injEq] at h
      rw [← h.1, h2, h.2]

theorem stageDirect_lookup {dc : DC} {nl n : Str} {cs : List Str}
    (h : stageDirect dc nl = some (n, cs)) : dlookup dc n = some cs := by
  unfold stageDirect at h
  cases h1 : dlookup dc nl with
  | none => simp only [h1, Option.map_none'] at h; exact Option.noConfusion h
  | some cs' =>
    simp only [h1, Option.map_some', Option.some.injEq, Prod.mk.injEq] at h
    rw [← h.1, h1, h.2]

theorem stageFuzzy_lookup {dc : DC} {nl n : Str} {cs : List Str}
    (h : stageFuzzy dc nl = some (n, cs)) : dlookup dc n = some cs := by
  unfold stageFuzzy at h
  cases hm : get_close_matches nl (dkeys dc) 1 3 5 with
  | nil => simp only [hm] at h; exact Option.noConfusion h
  | cons m rest =>
    simp only [hm] at h
    cases hl : dlookup dc m with
    | none => simp only [hl, Option.map_none'] at h; exact Option.noConfusion h
    | some cs' =>
      simp only [hl, Option.map_some', Option.some.injEq, Prod.mk.injEq] at h
      rw [← h.1, hl, h.2]

theorem find_distillery_eq (dc : DC) (name : Str) :
    find_distillery dc name =
      ((stageAlias dc (pyLower name)).orElse fun _ =>
        ((stageDirect dc (pyLower name)).orElse fun _ =>
          stageFuzzy dc (pyLower name))) := by
  unfold find_distillery stageAlias stageDirect
  cases h1 : dlookup name_variants (pyLower name) with
  | none =>
    cases h2 : dlookup dc (pyLower name) <;> simp [Option.orElse, h1, h2]
  | some std =>
    cases h2 : dlookup dc (pyLower std) <;>
      cases h3 : dlookup dc (pyLower name) <;> simp [Option.orElse, h1, h2, h3]

theorem find_distillery_lookup {dc : DC} {name n : Str} {cs : List Str}
    (h : find_distillery dc name = some (n, cs)) : dlookup dc n = some cs := by
  rw [find_distillery_eq] at h
  cases ha : stageAlias dc (pyLower name) with
  | some r =>
    rw [ha] at h
    simp only [Option.orElse] at h
    cases h
    exact stageAlias_lookup ha
  | none =>
    rw [ha] at h
    simp only [Option.orElse] at h
    cases hd : stageDirect dc (pyLower name) with
    | some r =>
      rw [hd] at h
      simp only at h
      cases h
      exact stageDirect_lookup hd
    | none =>
      rw [hd] at h
      simp only at h
      exact stageFuzzy_lookup h

/- ---------------------------------------------------------------------
Concrete fixtures used by counterexamples and witnesses.
--------------------------------------------------------------------- -/

/-- A record whose codes list contains a member code `"2"` distinct from its
primary id `"1"`. -/
def brandC1 : Brand := { id := str "1", name := str "alpha", codes := some [str "1", str "2"] }

def brandsC1 : List Brand := [brandC1]

/-- A one-entry canonical index for exercising the fuzzy stage. -/
def dcGlen : DC := [(str "glenfarclas", [str "23"])]

/-- The canonical index of the spec's alias scenario. -/
def dcInv : DC := [(str "inverleven", [str "77"])]

/-- A structurally valid source record. -/
def goodRaw : RawBrand :=
  { name := some (str "Glenfarclas"), id := some (str "23"), codes := some [str "23"] }

/-- A source record with no `name` key. -/
def badRaw : RawBrand := { id := some (str "99"), codes := some [str "99"] }

/- ---------------------------------------------------------------------
C1.
--------------------------------------------------------------------- -/

/-- C1, counterexample: the code `"2"` is a member of the only record's
`codes` set, yet the `/smws` lookup — which compares the normalized input
against `str(brand['id']).upper()` only — finds nothing, so lookup does
not succeed for all member codes. -/
theorem C1_counterexample :
    brandC1 ∈ brandsC1 ∧
    brandC1.codes = some [str "1", str "2"] ∧
    (str "2") ∈ [str "1", str "2"] ∧
    smwsFind brandsC1 (str "2") = none ∧
    smwsCommand brandsC1 (str "2") = SmwsOutcome.notFound := by
  exact ⟨List.mem_cons_self _ _, rfl, by decide, by rfl, by rfl⟩

/-- C1, amended: the code lookup of `/smws` resolves only primary ids — a
returned record is a dataset member whose id equals the trimmed,
case-folded input, and a record is found exactly when some dataset record
has such an id; member codes that are no record's id yield not-found. -/
theorem C1_amended_primary_id_lookup (brands : List Brand) (code : Str) :
    (∀ b, smwsFind brands code = some b →
      b ∈ brands ∧ pyUpper b.id = normCode code) ∧
    ((∃ b ∈ brands, pyUpper b.id = normCode code) →
      ∃ b, smwsFind brands code = some b ∧ pyUpper b.id = normCode code) := by
  constructor
  · intro b h
    refine ⟨List.mem_of_find?_eq_some h, ?_⟩
    have hp := List.find?_some h
    simpa using hp
  · intro h
    rcases h with ⟨b, hb, he⟩
    have hsome : (brands.find? (fun b => pyUpper b.id == normCode code)).isSome := by
      rw [List.find?_isSome]
      exact ⟨b, hb, by simpa using he⟩
    rcases Option.isSome_iff_exists.1 hsome with ⟨b', hb'⟩
    exact ⟨b', hb', by simpa using List.find?_some hb'⟩

/-- C1, witness of the amended claim at the id `" 1 "` (with surrounding
whitespace and the record present). -/
theorem C1_witness :
    ∃ b, smwsFind brandsC1 (str " 1 ") = some b ∧ pyUpper b.id = normCode (str " 1 ") :=
  (C1_amended_primary_id_lookup brandsC1 (str " 1 ")).2
    ⟨brandC1, List.mem_cons_self _ _, by rfl⟩

/- ---------------------------------------------------------------------
C2.
--------------------------------------------------------------------- -/

/-- C2, counterexample: for the input `"Glenfarclass"` the alias stage and
the direct stage both miss, yet `find_distillery` resolves the fuzzy
candidate itself and returns it as the answer — the name-lookup path does
auto-pick a fuzzy candidate instead of returning only suggestions. -/
theorem C2_counterexample :
    dlookup name_variants (pyLower (str "Glenfarclass")) = none ∧
    dlookup dcGlen (pyLower (str "Glenfarclass")) = none ∧
    find_distillery dcGlen (str "Glenfarclass") = some (str "glenfarclas", [str "23"]) := by
  exact ⟨by rfl, by rfl, by rfl⟩

/-- C2, amended: when the alias and direct stages miss, the fuzzy stage of
`find_distillery` itself resolves the single best candidate at ratio ≥ 0.6
and returns it (with that candidate's stored code set); only when the
fuzzy stage also finds nothing does the lookup come back empty (the
caller's up-to-3 ranked suggestions at cutoff 0.5 are produced only in
that empty case). -/
theorem C2_amended_fuzzy_autoresolve (dc : DC) (name : Str)
    (h1 : stageAlias dc (pyLower name) = none)
    (h2 : stageDirect dc (pyLower name) = none) :
    (∀ m rest, get_close_matches (pyLower name) (dkeys dc) 1 3 5 = m :: rest →
      ∃ cs, dlookup dc m = some cs ∧ find_distillery dc name = some (m, cs)) ∧
    (get_close_matches (pyLower name) (dkeys dc) 1 3 5 = [] →
      find_distillery dc name = none) := by
  have he : find_distillery dc name = stageFuzzy dc (pyLower name) := by
    rw [find_distillery_eq, h1, h2]
    rfl
  constructor
  · intro m rest hm
    have hmem : m ∈ dkeys dc :=
      get_close_matches_subset (by rw [hm]; exact List.mem_cons_self _ _)
    rcases mem_keys_lookup hmem with ⟨cs, hcs⟩
    refine ⟨cs, hcs, ?_⟩
    rw [he]
    unfold stageFuzzy
    simp only [hm, hcs, Option.map_some']
  · intro hm
    rw [he]
    unfold stageFuzzy
    simp only [hm]

/-- C2, witness of the amended claim on the fixture index. -/
theorem C2_witness :
    ∃ cs, dlookup dcGlen (str "glenfarclas") = some cs ∧
      find_distillery dcGlen (str "Glenfarclass") = some (str "glenfarclas", cs) :=
  (C2_amended_fuzzy_autoresolve dcGlen (str "Glenfarclass") (by rfl) (by rfl)).1
    (str "glenfarclas") [] (by rfl)

/- ---------------------------------------------------------------------
C3.
--------------------------------------------------------------------- -/

/-- C3: `find_distillery` is the short-circuiting composition of the alias
stage, the direct stage and the fuzzy stage (each later stage runs only
when every earlier one produced nothing), and whenever the input has a
registered alias whose canonical name is in the canonical index, that
alias answer is what is returned — for every index, hence also whenever a
fuzzy match would have been found. -/
theorem C3_pipeline_short_circuit (dc : DC) (name : Str) :
    find_distillery dc name =
      ((stageAlias dc (pyLower name)).orElse fun _ =>
        ((stageDirect dc (pyLower name)).orElse fun _ =>
          stageFuzzy dc (pyLower name))) ∧
    (∀ n cs, dlookup name_variants (pyLower name) = some n →
      dlookup dc (pyLower n) = some cs →
      find_distillery dc name = some (pyLower n, cs)) := by
  refine ⟨find_distillery_eq dc name, ?_⟩
  intro n cs h1 h2
  unfold find_distillery
  simp only [h1, h2]

/-- C3, witness: the alias `"Leven"` resolves through the alias stage. -/
theorem C3_witness :
    find_distillery dcInv (str "Leven") = some (str "inverleven", [str "77"]) :=
  (C3_pipeline_short_circuit dcInv (str "Leven")).2
    (str "inverleven") [str "77"] (by rfl) (by rfl)

/- ---------------------------------------------------------------------
C4.
--------------------------------------------------------------------- -/

/-- C4: for a registered alias `a` mapping to canonical name `n` whose
lower-cased form has an entry in the canonical index, `find_distillery`
on `a` returns `n` (lower-cased) with `n`'s stored code set, and this
equals `find_distillery` on `n` itself — alias resolution is idempotent
with canonical resolution (the table registers every canonical name as
its own variant, verified over the whole concrete table). -/
theorem C4_alias_idempotent (dc : DC) (a n : Str) (cs : List Str)
    (h1 : dlookup name_variants (pyLower a) = some n)
    (h2 : dlookup dc (pyLower n) = some cs) :
    find_distillery dc a = some (pyLower n, cs) ∧
    find_distillery dc a = find_distillery dc n := by
  have hrefl : dlookup name_variants (pyLower n) = some n :=
    values_reflexive (pyLower a, n) (dlookup_mem h1)
  have hone : find_distillery dc a = some (pyLower n, cs) := by
    unfold find_distillery
    simp only [h1, h2]
  have htwo : find_distillery dc n = some (pyLower n, cs) := by
    unfold find_distillery
    simp only [hrefl, h2]
  exact ⟨hone, hone.trans htwo.symm⟩

/-- C4, witness: the spec's scenario — alias `"leven" → "inverleven"`,
canonical `"inverleven"` with codes `{"77"}`; `resolveByName("Leven")`
gives canonical `"inverleven"` with codes `{"77"}`, identically to
`resolveByName("inverleven")`. -/
theorem C4_witness :
    (find_distillery dcInv (str "Leven") = some (str "inverleven", [str "77"]) ∧
     find_distillery dcInv (str "Leven") = find_distillery dcInv (str "inverleven")) :=
  C4_alias_idempotent dcInv (str "Leven") (str "inverleven") [str "77"] (by rfl) (by rfl)

/- ---------------------------------------------------------------------
C5.
--------------------------------------------------------------------- -/

/-- C5, counterexample: a collection holding one valid record and one
record missing `name` does not load the valid record and skip the bad one
— the whole load raises (the logged exception is re-raised), so nothing
loads at all. -/
theorem C5_counterexample :
    loadBrandsAll [goodRaw, badRaw] = Except.error (str "KeyError: name") := by rfl

/-- A structurally deficient record: a key whose access raises. -/
def rawInvalid (b : RawBrand) : Prop :=
  b.name = none ∨ b.codes = none ∨ b.id = none

theorem processBrand_invalid {acc : List (Str × BrandInfo) × DC} {b : RawBrand}
    (h : rawInvalid b) : ∃ e, processBrand acc b = .error e := by
  unfold processBrand
  cases hn : b.name with
  | none => exact ⟨str "KeyError: name", by simp only [hn]⟩
  | some nm =>
    cases hc : b.codes with
    | none => exact ⟨str "KeyError: codes", by simp only [hn, hc]⟩
    | some cs =>
      cases hid : b.id with
      | none => exact ⟨str "KeyError: id", by simp only [hn, hc, hid]⟩
      | some id_ =>
        rcases h with h | h | h
        · rw [hn] at h; exact Option.noConfusion h
        · rw [hc] at h; exact Option.noConfusion h
        · rw [hid] at h; exact Option.noConfusion h

theorem loadBrands_invalid_error : ∀ (data : List RawBrand)
    (acc : List (Str × BrandInfo) × DC),
    (∃ b ∈ data, rawInvalid b) → ∃ e, loadBrands data acc = .error e := by
  intro data
  induction data with
  | nil =>
    intro acc h
    rcases h with ⟨b, hb, _⟩
    simp at hb
  | cons x rest ih =>
    intro acc h
    rcases h with ⟨b, hb, hinv⟩
    cases hp : processBrand acc x with
    | error e => exact ⟨e, by unfold loadBrands; simp only [hp]⟩
    | ok acc' =>
      rcases List.mem_cons.1 hb with hb | hb
      · subst hb
        rcases @processBrand_invalid acc _ hinv with ⟨e, he⟩
        rw [hp] at he
        exact Except.noConfusion he
      · rcases ih acc' ⟨b, hb, hinv⟩ with ⟨e, he⟩
        exact ⟨e, by unfold loadBrands; simp only [hp]; exact he⟩

/-- C5, amended: a structurally deficient record (missing `name`, `codes`
or `id`) makes the whole load fail — the per-record exception is logged
and re-raised, so no record survives and initialization aborts even when
other records are valid; an empty collection, by contrast, loads
successfully into empty indexes and is not fatal. -/
theorem C5_amended_fatal_load (data : List RawBrand)
    (h : ∃ b ∈ data, rawInvalid b) :
    (∃ e, loadBrandsAll data = .error e) ∧
    loadBrandsAll ([] : List RawBrand) = .ok ([], []) :=
  ⟨loadBrands_invalid_error data ([], []) h, rfl⟩

/-- C5, witness of the amended claim on a one-bad-record collection. -/
theorem C5_witness :
    (∃ e, loadBrandsAll [badRaw] = Except.error e) ∧
    loadBrandsAll ([] : List RawBrand) = .ok ([], []) :=
  C5_amended_fatal_load [badRaw] ⟨badRaw, List.mem_cons_self _ _, Or.inl rfl⟩

/- ---------------------------------------------------------------------
C6.
--------------------------------------------------------------------- -/

/-- C6: a description or notes field longer than 1024 characters is
rendered as its first 1021 characters followed by the `"..."` marker —
1024 characters in total — and a field of at most 1024 characters is
rendered unchanged; the presenter's Description and Notes fields carry
exactly this truncation. -/
theorem C6_truncation (s : Str) :
    (1024 < s.length →
      truncateField s = s.take 1021 ++ str "..." ∧ (truncateField s).length = 1024) ∧
    (s.length ≤ 1024 → truncateField s = s) ∧
    (s ≠ [] →
      descField (some s) = [⟨str "Description", truncateField s⟩] ∧
      notesField (some s) = [⟨str "Notes", truncateField s⟩]) := by
  refine ⟨?_, ?_, ?_⟩
  · intro h
    have ht : truncateField s = s.take 1021 ++ str "..." := by
      unfold truncateField
      rw [if_pos h]
    refine ⟨ht, ?_⟩
    rw [ht, List.length_append, List.length_take]
    have hm : min 1021 s.length = 1021 := by omega
    rw [hm]
    decide
  · intro h
    unfold truncateField
    rw [if_neg (by omega)]
  · intro h
    exact ⟨by simp [descField, h], by simp [notesField, h]⟩

/-- C6, witness: an 1100-character description renders as its first 1021
characters plus the marker, 1024 characters in total. -/
theorem C6_witness :
    truncateField (List.replicate 1100 'a') =
      (List.replicate 1100 'a').take 1021 ++ str "..." ∧
    (truncateField (List.replicate 1100 'a')).length = 1024 :=
  (C6_truncation (List.replicate 1100 'a')).1 (by simp)

/- ---------------------------------------------------------------------
C7.
--------------------------------------------------------------------- -/

/-- A record whose codes list is out of order once the looked-up code is
removed. -/
def brandC7 : Brand :=
  { id := str "1", name := str "alpha", codes := some [str "1", str "3", str "2"] }

/-- C7, counterexample: looking up `"1"` on a record with codes
`["1", "3", "2"]` renders the other-codes field as `"3, 2"` — the
looked-up code is excluded and the cap applies, but the list is presented
in stored order, not sorted. -/
theorem C7_counterexample :
    otherCodes [str "1", str "3", str "2"] (normCode (str "1")) = [str "3", str "2"] ∧
    codesField brandC7.codes (normCode (str "1")) =
      [⟨str "Other SMWS Codes", str "3, 2"⟩] ∧
    ¬ List.Pairwise (fun a b : Str => lexGt a b = false) [str "3", str "2"] := by
  exact ⟨by rfl, by rfl, by decide⟩

/-- C7, amended: the other-codes list excludes every code equal
(case-insensitively) to the normalized lookup code, holds at most 25
entries, and is a subsequence of the record's stored codes list — i.e. it
keeps the record's stored order and is not sorted. -/
theorem C7_amended_other_codes (cs : List Str) (lookupCode : Str) :
    (otherCodes cs lookupCode).length ≤ 25 ∧
    (otherCodes cs lookupCode).Sublist cs ∧
    (∀ c ∈ otherCodes cs lookupCode, pyUpper c ≠ lookupCode) ∧
    (∀ b : Brand, b.codes = some cs → otherCodes cs lookupCode ≠ [] →
      codesField b.codes lookupCode =
        [⟨str "Other SMWS Codes", joinComma (otherCodes cs lookupCode)⟩]) := by
  refine ⟨?_, ?_, ?_, ?_⟩
  · exact List.length_take_le _ _
  · exact (List.take_sublist _ _).trans (List.filter_sublist _)
  · intro c hc
    have hf := List.take_subset _ _ hc
    have := (List.mem_filter.1 hf).2
    simpa using this
  · intro b hb hne
    have hfil : cs.filter (fun c => !(pyUpper c == lookupCode)) ≠ [] := by
      intro hf
      exact hne (by unfold otherCodes; rw [hf]; rfl)
    unfold codesField
    simp only [hb]
    rw [if_neg hfil]

/-- C7, witness of the amended claim at the fixture record. -/
theorem C7_witness :
    codesField brandC7.codes (normCode (str "1")) =
      [⟨str "Other SMWS Codes",
        joinComma (otherCodes [str "1", str "3", str "2"] (normCode (str "1")))⟩] :=
  (C7_amended_other_codes [str "1", str "3", str "2"] (normCode (str "1"))).2.2.2
    brandC7 (by rfl) (by decide)

/- ---------------------------------------------------------------------
C8.
--------------------------------------------------------------------- -/

/-- C8: when the embed built for a found record exceeds the 6000-character
platform limit, the `/smws` command reports the oversized condition and
sends no (partial or truncated) embed. -/
theorem C8_oversized (brands : List Brand) (code : Str) (b : Brand)
    (h : smwsFind brands code = some b)
    (h6 : 6000 < embedLen (buildEmbed b code (normCode code))) :
    smwsCommand brands code = SmwsOutcome.oversized := by
  unfold smwsCommand
  simp only [h]
  rw [if_pos h6]

/-- A record whose name alone pushes the embed over the limit. -/
def brandBig : Brand :=
  { id := str "1", name := List.replicate 6001 'a', codes := some [str "1"] }

/-- C8, witness: a 6001-character name makes the rendered embed 6012
characters, and the command reports oversized. -/
theorem C8_witness :
    smwsCommand [brandBig] (str "1") = SmwsOutcome.oversized :=
  C8_oversized [brandBig] (str "1") brandBig (by rfl) (by
    have he : buildEmbed brandBig (str "1") (normCode (str "1")) =
        { title := str "SMWS Code " ++ str "1",
          description := List.replicate 6001 'a', fields := [] } := by rfl
    rw [he]
    have ht : (str "SMWS Code " ++ str "1").length = 11 := by decide
    simp only [embedLen, ht, List.length_replicate, List.map_nil, List.sum_nil]
    norm_num)

/- ---------------------------------------------------------------------
C9.
--------------------------------------------------------------------- -/

/-- C9: if no stage matches — the alias stage and direct stage produce
nothing and no fuzzy candidate reaches ratio 0.6 — then `find_distillery`
returns with both components absent (it is a total function: absence is a
return value, not an exception), while the caller's suggestion list at the
looser 0.5 cutoff still holds at most 3 entries, all drawn from the
canonical-index keys. -/
theorem C9_no_match (dc : DC) (name : Str)
    (h1 : stageAlias dc (pyLower name) = none)
    (h2 : stageDirect dc (pyLower name) = none)
    (h3 : get_close_matches (pyLower name) (dkeys dc) 1 3 5 = []) :
    find_distillery dc name = none ∧
    (suggest dc name).length ≤ 3 ∧
    ∀ s ∈ suggest dc name, s ∈ dkeys dc := by
  refine ⟨?_, ?_, ?_⟩
  · rw [find_distillery_eq, h1, h2]
    show stageFuzzy dc (pyLower name) = none
    unfold stageFuzzy
    simp only [h3]
  · show (get_close_matches (pyLower name) (dkeys dc) 3 1 2).length ≤ 3
    exact get_close_matches_length _ _ _ _ _
  · intro s hs
    exact get_close_matches_subset hs

/-- C9, witness: the unrelated input `"zzzqqq"` matches nothing and gets
an empty suggestion list. -/
theorem C9_witness :
    find_distillery dcGlen (str "zzzqqq") = none ∧
    (suggest dcGlen (str "zzzqqq")).length ≤ 3 ∧
    ∀ s ∈ suggest dcGlen (str "zzzqqq"), s ∈ dkeys dcGlen :=
  C9_no_match dcGlen (str "zzzqqq") (by rfl) (by rfl) (by rfl)

/- ---------------------------------------------------------------------
C10.
--------------------------------------------------------------------- -/

/-- All values of the canonical index are non-empty code sets. -/
def ValuesNonempty (dc : DC) : Prop :=
  ∀ k v, dlookup dc k = some v → v ≠ []

theorem setAdd_ne_nil (s : List Str) (x : Str) : setAdd s x ≠ [] := by
  unfold setAdd
  by_cases h : x ∈ s
  · rw [if_pos h]
    intro hnil
    rw [hnil] at h
    simp at h
  · rw [if_neg h]
    simp

theorem dcAdd_values {dc : DC} {nm id_ : Str} (h : ValuesNonempty dc) :
    ValuesNonempty (dcAdd dc nm id_) := by
  intro k v hv
  unfold dcAdd at hv
  cases hl : dlookup dc nm with
  | some s =>
    simp only [hl] at hv
    rcases dlookup_dictSet_cases hv with he | he
    · rw [he]; exact setAdd_ne_nil _ _
    · exact h k v he
  | none =>
    simp only [hl] at hv
    rcases dlookup_dictSet_cases hv with he | he
    · rw [he]; exact setAdd_ne_nil _ _
    · exact h k v he

theorem processBrand_values {acc acc' : List (Str × BrandInfo) × DC} {b : RawBrand}
    (h : processBrand acc b = .ok acc') (hv : ValuesNonempty acc.2) :
    ValuesNonempty acc'.2 := by
  unfold processBrand at h
  cases hn : b.name with
  | none => simp only [hn] at h; exact Except.noConfusion h
  | some nm =>
    simp only [hn] at h
    cases hc : b.codes with
    | none => simp only [hc] at h; exact Except.noConfusion h
    | some cs =>
      simp only [hc] at h
      cases hid : b.id with
      | none => simp only [hid] at h; exact Except.noConfusion h
      | some id_ =>
        simp only [hid] at h
        cases h
        exact dcAdd_values hv

theorem loadBrands_values : ∀ (data : List RawBrand)
    (acc res : List (Str × BrandInfo) × DC),
    loadBrands data acc = .ok res → ValuesNonempty acc.2 → ValuesNonempty res.2 := by
  intro data
  induction data with
  | nil =>
    intro acc res h hv
    unfold loadBrands at h
    cases h
    exact hv
  | cons b rest ih =>
    intro acc res h hv
    unfold loadBrands at h
    cases hp : processBrand acc b with
    | error e => simp only [hp] at h; exact Except.noConfusion h
    | ok acc' =>
      simp only [hp] at h
      exact ih acc' res h (processBrand_values hp hv)

/-- C10: on any canonical index produced by `load_brands`, whenever
`find_distillery` returns a pair `(n, cs)`, `n` is a key of the index and
`cs` is exactly the code set stored under it — and therefore non-empty —
whichever stage produced the answer. -/
theorem C10_points_back (data : List RawBrand) (bs : List (Str × BrandInfo)) (dc : DC)
    (h : loadBrandsAll data = .ok (bs, dc)) (name n : Str) (cs : List Str)
    (hf : find_distillery dc name = some (n, cs)) :
    dlookup dc n = some cs ∧ cs ≠ [] := by
  have hlu := find_distillery_lookup hf
  have hv : ValuesNonempty dc := by
    refine loadBrands_values data ([], []) (bs, dc) h ?_
    intro k v hkv
    simp [dlookup] at hkv
  exact ⟨hlu, hv n cs hlu⟩

/-- The one-record dataset of the alias scenario and the indexes
`load_brands` builds from it. -/
def dataInv : List RawBrand :=
  [{ name := some (str "Inverleven"), id := some (str "77"), codes := some [str "77"] }]

def bsInv : List (Str × BrandInfo) :=
  [(str "77", ⟨str "Inverleven", {}, [], []⟩)]

/-- C10, witness: the alias-stage answer for `"Leven"` on the loaded index
points back into the index with a non-empty code set. -/
theorem C10_witness :
    dlookup dcInv (str "inverleven") = some [str "77"] ∧
    [str "77"] ≠ ([] : List Str) :=
  C10_points_back dataInv bsInv dcInv (by rfl) (str "Leven") (str "inverleven")
    [str "77"] (by rfl)
